import Mathlib

/-!
Shallow embedding of the geodist computational core (pure-Python reference
kernels in `src/pygeodist/src/geodist/pure.py`, geometry validation in
`src/pygeodist/src/geodist/geometry.py`, and the vectorized dispatch layer in
`src/pygeodist/src/geodist/vectorized.py`).

Python floats are modelled by real numbers; `math.sin` / `math.cos` /
`math.atan2` / `math.sqrt` become their exact real counterparts, and Python's
`%` on floats becomes `pymod` below.  The `float('inf')` / `float('-inf')`
loop sentinels of `_directed_hausdorff` are handled by unrolling the first
iteration of each loop: starting from `+inf` the first candidate always wins
the `distance < nearest` test, and starting from `-inf` the first origin
always wins the `nearest > best_distance` test, so the unrolled form computes
the same state without needing infinities (the loops are only ever entered
with non-empty sequences, as enforced by the emptiness checks that precede
them in the source).

Error values are modelled by the kind of exception raised; the repository's
exception classes carry messages, which are dropped here.
-/

namespace Geodist

noncomputable section

/-- Error kinds of the geodist error family. `invalidGeometry` models
`InvalidGeometryError`, `emptyPointSet` models the bindings'
`EmptyPointSetError`, and `vectorization` models `VectorizationError`. -/
inductive GeoErr where
  | invalidGeometry
  | emptyPointSet
  | vectorization
  deriving DecidableEq

/-- A latitude/longitude pair in degrees, the tuple form of a point. -/
abbrev Pt : Type := ℝ × ℝ

/-- `EARTH_RADIUS_METERS = 6_371_008.8` from `pure.py`. -/
def EARTH_RADIUS_METERS : ℝ := 6371008.8

/-- `math.radians`: degrees to radians. -/
def radians (d : ℝ) : ℝ := d * (Real.pi / 180)

/-- `math.degrees`: radians to degrees. -/
def degrees (r : ℝ) : ℝ := r * (180 / Real.pi)

/-- `math.atan2 y x` on exact reals (signed zeros do not exist here). -/
def atan2 (y x : ℝ) : ℝ :=
  if 0 < x then Real.arctan (y / x)
  else if x < 0 then
    (if 0 ≤ y then Real.arctan (y / x) + Real.pi else Real.arctan (y / x) - Real.pi)
  else
    (if 0 < y then Real.pi / 2 else if y < 0 then -(Real.pi / 2) else 0)

/-- Python's `%` on floats (used only with positive modulus `360.0`):
`x % m = x - m * floor (x / m)`. -/
def pymod (x m : ℝ) : ℝ := x - m * (⌊x / m⌋ : ℝ)

/-- `_haversine_distance` from `pure.py`. -/
def haversine_distance (lat1_deg lon1_deg lat2_deg lon2_deg : ℝ) : ℝ :=
  let lat1_rad := radians lat1_deg
  let lon1_rad := radians lon1_deg
  let lat2_rad := radians lat2_deg
  let lon2_rad := radians lon2_deg
  let delta_lat := lat2_rad - lat1_rad
  let delta_lon := lon2_rad - lon1_rad
  let sin_lat := Real.sin (delta_lat / 2)
  let sin_lon := Real.sin (delta_lon / 2)
  let a := sin_lat * sin_lat + Real.cos lat1_rad * Real.cos lat2_rad * sin_lon * sin_lon
  let central_angle := 2 * atan2 (Real.sqrt a) (Real.sqrt (1 - a))
  EARTH_RADIUS_METERS * central_angle

/-- `_initial_bearing` from `pure.py` (note: the source calls
`math.atan2(x, y)`, so `x` is the numerator argument). -/
def initial_bearing (lat1_deg lon1_deg lat2_deg lon2_deg : ℝ) : ℝ :=
  let lat1_rad := radians lat1_deg
  let lat2_rad := radians lat2_deg
  let delta_lon := radians (lon2_deg - lon1_deg)
  let x := Real.sin delta_lon * Real.cos lat2_rad
  let y := Real.cos lat1_rad * Real.sin lat2_rad -
    Real.sin lat1_rad * Real.cos lat2_rad * Real.cos delta_lon
  pymod (degrees (atan2 x y)) 360

/-- `_coerce_latitude` from `geometry.py`: on real inputs the bool and
finiteness rejections are vacuous, leaving the range check
`value < min or value > max`. -/
def coerce_latitude (x : ℝ) : Except GeoErr ℝ :=
  if x < -90 ∨ 90 < x then .error .invalidGeometry else .ok x

/-- `_coerce_longitude` from `geometry.py`. -/
def coerce_longitude (x : ℝ) : Except GeoErr ℝ :=
  if x < -180 ∨ 180 < x then .error .invalidGeometry else .ok x

/-- Modelled from the spec: `_coerce_point_like` is imported by `pure.py` from
`geodist.geometry` but is absent from the source snapshot.  Per spec section 3
a point's latitude must lie in `[-90, 90]` and its longitude in `[-180, 180]`
(the same checks `_coerce_latitude` / `_coerce_longitude` in `geometry.py`
perform), with `InvalidGeometryError` on violation. -/
def point_from_any (p : Pt) : Except GeoErr Pt :=
  match coerce_latitude p.1 with
  | .error e => .error e
  | .ok la =>
    match coerce_longitude p.2 with
    | .error e => .error e
    | .ok lo => .ok (la, lo)

/-- A point that passes `point_from_any` validation. -/
def ValidPt (p : Pt) : Prop :=
  (-90 ≤ p.1 ∧ p.1 ≤ 90) ∧ (-180 ≤ p.2 ∧ p.2 ≤ 180)

/-- `GeodesicResult` value (field names as constructed in `pure.py`). -/
structure GeodesicResult where
  distance_m : ℝ
  initial_bearing_deg : ℝ
  final_bearing_deg : ℝ

/-- `HausdorffDirectedWitness` value. -/
structure HausdorffDirectedWitness where
  distance_m : ℝ
  origin_index : ℤ
  candidate_index : ℤ

/-- `HausdorffWitness` value. -/
structure HausdorffWitness where
  distance_m : ℝ
  a_to_b : HausdorffDirectedWitness
  b_to_a : HausdorffDirectedWitness

/-- `geodesic_distance_sphere` from `pure.py`. -/
def geodesic_distance_sphere (origin destination : Pt) : Except GeoErr ℝ :=
  match point_from_any origin with
  | .error e => .error e
  | .ok o =>
    match point_from_any destination with
    | .error e => .error e
    | .ok d => .ok (haversine_distance o.1 o.2 d.1 d.2)

/-- `geodesic_with_bearings_sphere` from `pure.py`: the final bearing is the
initial bearing of the reversed pair, with no 180-degree adjustment. -/
def geodesic_with_bearings_sphere (origin destination : Pt) :
    Except GeoErr GeodesicResult :=
  match point_from_any origin with
  | .error e => .error e
  | .ok o =>
    match point_from_any destination with
    | .error e => .error e
    | .ok d =>
      .ok { distance_m := haversine_distance o.1 o.2 d.1 d.2
            initial_bearing_deg := initial_bearing o.1 o.2 d.1 d.2
            final_bearing_deg := initial_bearing d.1 d.2 o.1 o.2 }

/-- Inner loop of `_directed_hausdorff` over the remaining candidates, with
running state `(nearest, nearest_index)`.  The `float('inf')` start is
handled by `nearest_search` below, which unrolls the first iteration. -/
def nearest_loop (olat olon : ℝ) : List Pt → Nat → ℝ → ℤ → Except GeoErr (ℝ × ℤ)
  | [], _, nearest, nearest_index => .ok (nearest, nearest_index)
  | c :: cs, i, nearest, nearest_index =>
    match point_from_any c with
    | .error e => .error e
    | .ok q =>
      let distance := haversine_distance olat olon q.1 q.2
      if distance < nearest then nearest_loop olat olon cs (i + 1) distance (i : ℤ)
      else nearest_loop olat olon cs (i + 1) nearest nearest_index

/-- Inner loop of `_directed_hausdorff` over a non-empty candidate list
`b0 :: bs`.  Starting from `nearest = inf`, the first candidate always
passes `distance < nearest`, so the loop is unrolled one step. -/
def nearest_search (olat olon : ℝ) (b0 : Pt) (bs : List Pt) : Except GeoErr (ℝ × ℤ) :=
  match point_from_any b0 with
  | .error e => .error e
  | .ok q => nearest_loop olat olon bs 1 (haversine_distance olat olon q.1 q.2) 0

/-- Outer loop of `_directed_hausdorff` over the remaining origins, with
running state `(best_distance, best_origin, best_candidate)`.  The
`float('-inf')` start is handled by `hausdorff_search` below. -/
def hausdorff_loop (b0 : Pt) (bs : List Pt) :
    List Pt → Nat → ℝ → ℤ → ℤ → Except GeoErr (ℝ × ℤ × ℤ)
  | [], _, best, best_origin, best_candidate => .ok (best, best_origin, best_candidate)
  | o :: os, i, best, best_origin, best_candidate =>
    match point_from_any o with
    | .error e => .error e
    | .ok p =>
      match nearest_search p.1 p.2 b0 bs with
      | .error e => .error e
      | .ok (nearest, nearest_index) =>
        if best < nearest then hausdorff_loop b0 bs os (i + 1) nearest (i : ℤ) nearest_index
        else hausdorff_loop b0 bs os (i + 1) best best_origin best_candidate

/-- Outer loop of `_directed_hausdorff` over a non-empty origin list
`a0 :: as`.  Starting from `best_distance = -inf`, the first origin always
passes `nearest > best_distance`, so the loop is unrolled one step. -/
def hausdorff_search (b0 : Pt) (bs : List Pt) (a0 : Pt) (rest : List Pt) :
    Except GeoErr (ℝ × ℤ × ℤ) :=
  match point_from_any a0 with
  | .error e => .error e
  | .ok p =>
    match nearest_search p.1 p.2 b0 bs with
    | .error e => .error e
    | .ok (nearest, nearest_index) => hausdorff_loop b0 bs rest 1 nearest 0 nearest_index

/-- `_directed_hausdorff` from `pure.py`: emptiness checks, then the nested
search; empty `a` is always an error, empty `b` is an error unless
`allow_empty`, in which case a sentinel witness is returned. -/
def directed_hausdorff (a b : List Pt) (allow_empty : Bool) :
    Except GeoErr HausdorffDirectedWitness :=
  match a with
  | [] => .error .invalidGeometry
  | a0 :: rest =>
    match b with
    | [] =>
      if allow_empty then .ok ⟨0, -1, -1⟩ else .error .invalidGeometry
    | b0 :: bs =>
      match hausdorff_search b0 bs a0 rest with
      | .error e => .error e
      | .ok (best, best_origin, best_candidate) => .ok ⟨best, best_origin, best_candidate⟩

/-- `hausdorff_directed_naive` from `pure.py` (the default
`allow_empty=False` policy of `_directed_hausdorff`). -/
def hausdorff_directed_naive (a b : List Pt) : Except GeoErr HausdorffDirectedWitness :=
  directed_hausdorff a b false

/-- `hausdorff_naive` from `pure.py`: both directed searches, combined with
`forward if forward.distance_m >= reverse.distance_m else reverse`. -/
def hausdorff_naive (a b : List Pt) : Except GeoErr HausdorffWitness :=
  match directed_hausdorff a b false with
  | .error e => .error e
  | .ok forward =>
    match directed_hausdorff b a false with
    | .error e => .error e
    | .ok reverse =>
      .ok ⟨if forward.distance_m ≥ reverse.distance_m then forward.distance_m
           else reverse.distance_m, forward, reverse⟩

/-- `BoundingBox` value (already-validated coordinates, degree fields as in
`geometry.py`). -/
structure BoundingBox where
  min_lat_deg : ℝ
  max_lat_deg : ℝ
  min_lon_deg : ℝ
  max_lon_deg : ℝ

/-- `BoundingBox.__init__` from `geometry.py`: coerce the four coordinates,
then reject `min_lat > max_lat` and `min_lon > max_lon`. -/
def mkBoundingBox (min_lat max_lat min_lon max_lon : ℝ) : Except GeoErr BoundingBox :=
  match coerce_latitude min_lat with
  | .error e => .error e
  | .ok mla =>
    match coerce_latitude max_lat with
    | .error e => .error e
    | .ok bla =>
      match coerce_longitude min_lon with
      | .error e => .error e
      | .ok mlo =>
        match coerce_longitude max_lon with
        | .error e => .error e
        | .ok blo =>
          if bla < mla then .error .invalidGeometry
          else if blo < mlo then .error .invalidGeometry
          else .ok ⟨mla, bla, mlo, blo⟩

/-- Inclusive containment test of `_clip_points`:
`min_lat <= lat <= max_lat and min_lon <= lon <= max_lon`. -/
def inBox (box : BoundingBox) (p : Pt) : Prop :=
  box.min_lat_deg ≤ p.1 ∧ p.1 ≤ box.max_lat_deg ∧
    box.min_lon_deg ≤ p.2 ∧ p.2 ≤ box.max_lon_deg

instance (box : BoundingBox) (p : Pt) : Decidable (inBox box p) :=
  inferInstanceAs (Decidable (_ ∧ _ ∧ _ ∧ _))

/-- The validate-then-filter comprehension of `_clip_points`: every point is
passed through `_point_from_any` (raising on the first invalid point) and
kept when inside the box. -/
def clip_loop (box : BoundingBox) : List Pt → Except GeoErr (List Pt)
  | [] => .ok []
  | p :: ps =>
    match point_from_any p with
    | .error e => .error e
    | .ok q =>
      match clip_loop box ps with
      | .error e => .error e
      | .ok qs => if inBox box q then .ok (q :: qs) else .ok qs

/-- `_clip_points` from `pure.py`: filter to the box, error if nothing
remains. -/
def clip_points (points : List Pt) (box : BoundingBox) : Except GeoErr (List Pt) :=
  match clip_loop box points with
  | .error e => .error e
  | .ok [] => .error .invalidGeometry
  | .ok (q :: qs) => .ok (q :: qs)

/-- `hausdorff_directed_clipped_naive` from `pure.py`. -/
def hausdorff_directed_clipped_naive (a b : List Pt) (box : BoundingBox) :
    Except GeoErr HausdorffDirectedWitness :=
  match clip_points a box with
  | .error e => .error e
  | .ok clipped_a =>
    match clip_points b box with
    | .error e => .error e
    | .ok clipped_b => directed_hausdorff clipped_a clipped_b false

/-- `hausdorff_clipped_naive` from `pure.py`. -/
def hausdorff_clipped_naive (a b : List Pt) (box : BoundingBox) :
    Except GeoErr HausdorffWitness :=
  match clip_points a box with
  | .error e => .error e
  | .ok clipped_a =>
    match clip_points b box with
    | .error e => .error e
    | .ok clipped_b =>
      match directed_hausdorff clipped_a clipped_b false with
      | .error e => .error e
      | .ok forward =>
        match directed_hausdorff clipped_b clipped_a false with
        | .error e => .error e
        | .ok reverse =>
          .ok ⟨if forward.distance_m ≥ reverse.distance_m then forward.distance_m
               else reverse.distance_m, forward, reverse⟩

/-- A Python exception as seen by `vectorized.py`: either a member of the
geodist error family (`GeodistError` and subclasses) or any other
exception, identified by an opaque tag. -/
inductive PyExc where
  | geodist (e : GeoErr)
  | other (tag : Nat)

section Vectorized

variable {G T : Type}

/-- `_python_apply` from `vectorized.py`: sequential elementwise application
over `zip(left, right)`; the first exception aborts the batch. -/
def python_apply (f : G → G → Except PyExc T) : List G → List G → Except PyExc (List T)
  | [], _ => .ok []
  | _ :: _, [] => .ok []
  | x :: xs, y :: ys =>
    match f x y with
    | .error e => .error e
    | .ok t =>
      match python_apply f xs ys with
      | .error e => .error e
      | .ok ts => .ok (t :: ts)

/-- `_numpy_apply` from `vectorized.py`: `None` when numpy is unavailable;
otherwise the bulk path applies `func` elementwise in index order
(`np.vectorize`), re-raises any `GeodistError`, and converts every other
exception into `None` (the fallback signal).  The internal shape check is
unreachable from `_dispatch`, which has already matched the lengths. -/
def numpy_apply (hasNumpy : Bool) (f : G → G → Except PyExc T) (l r : List G) :
    Except PyExc (Option (List T)) :=
  if hasNumpy = false then .ok none
  else if l.length ≠ r.length then .error (.geodist .vectorization)
  else
    match python_apply f l r with
    | .ok ts => .ok (some ts)
    | .error (.geodist e) => .error (.geodist e)
    | .error (.other _) => .ok none

/-- `_dispatch` from `vectorized.py`: validate (in this typed embedding the
per-element `isinstance` checks cannot fail), match lengths, try the bulk
path, and fall back to `_python_apply` when it returns `None`. -/
def dispatch (hasNumpy : Bool) (f : G → G → Except PyExc T) (l r : List G) :
    Except PyExc (List T) :=
  if l.length ≠ r.length then .error (.geodist .vectorization)
  else
    match numpy_apply hasNumpy f l r with
    | .error e => .error e
    | .ok (some ts) => .ok ts
    | .ok none => python_apply f l r

end Vectorized

end

/-! ### Basic facts about the embedded kernels -/

theorem coerce_latitude_eq_ok {x : ℝ} (h1 : -90 ≤ x) (h2 : x ≤ 90) :
    coerce_latitude x = .ok x := by
  unfold coerce_latitude
  rw [if_neg]
  push_neg
  exact ⟨h1, h2⟩

theorem coerce_longitude_eq_ok {x : ℝ} (h1 : -180 ≤ x) (h2 : x ≤ 180) :
    coerce_longitude x = .ok x := by
  unfold coerce_longitude
  rw [if_neg]
  push_neg
  exact ⟨h1, h2⟩

theorem point_from_any_eq_ok {p : Pt} (h : ValidPt p) : point_from_any p = .ok p := by
  obtain ⟨⟨h1, h2⟩, h3, h4⟩ := h
  unfold point_from_any
  rw [coerce_latitude_eq_ok h1 h2, coerce_longitude_eq_ok h3 h4]

theorem pymod_nonneg (x : ℝ) {m : ℝ} (hm : 0 < m) : 0 ≤ pymod x m := by
  have h : ((⌊x / m⌋ : ℝ)) * m ≤ x := (le_div_iff₀ hm).mp (Int.floor_le (x / m))
  unfold pymod
  nlinarith

theorem pymod_lt (x : ℝ) {m : ℝ} (hm : 0 < m) : pymod x m < m := by
  have h : x < ((⌊x / m⌋ : ℝ) + 1) * m := (div_lt_iff₀ hm).mp (Int.lt_floor_add_one (x / m))
  unfold pymod
  nlinarith

theorem atan2_nonneg {y x : ℝ} (hy : 0 ≤ y) : 0 ≤ atan2 y x := by
  have hpi := Real.pi_pos
  have harct := Real.neg_pi_div_two_lt_arctan (y / x)
  unfold atan2
  rcases lt_trichotomy x 0 with hx | hx | hx
  · rw [if_neg (by linarith), if_pos hx, if_pos hy]
    linarith
  · subst hx
    rw [if_neg (lt_irrefl 0), if_neg (lt_irrefl 0)]
    rcases lt_or_eq_of_le hy with hy' | hy'
    · rw [if_pos hy']
      linarith
    · rw [if_neg (by rw [← hy']; exact lt_irrefl 0), if_neg (by rw [← hy']; exact lt_irrefl 0)]
  · rw [if_pos hx]
    calc (0 : ℝ) = Real.arctan 0 := Real.arctan_zero.symm
      _ ≤ Real.arctan (y / x) := Real.arctan_strictMono.monotone (div_nonneg hy hx.le)

theorem atan2_pos_zero {y : ℝ} (hy : 0 < y) : atan2 y 0 = Real.pi / 2 := by
  unfold atan2
  rw [if_neg (lt_irrefl 0), if_neg (lt_irrefl 0), if_pos hy]

theorem atan2_neg_zero {y : ℝ} (hy : y < 0) : atan2 y 0 = -(Real.pi / 2) := by
  unfold atan2
  rw [if_neg (lt_irrefl 0), if_neg (lt_irrefl 0), if_neg (by linarith), if_pos hy]

theorem atan2_pos_of_pos {y x : ℝ} (hy : 0 < y) (hx : 0 < x) : 0 < atan2 y x := by
  unfold atan2
  rw [if_pos hx]
  calc (0 : ℝ) = Real.arctan 0 := Real.arctan_zero.symm
    _ < Real.arctan (y / x) := Real.arctan_strictMono (div_pos hy hx)

/-- The `a` term of the haversine formula, named for reuse in proofs. -/
noncomputable def hav_a (lat1_deg lon1_deg lat2_deg lon2_deg : ℝ) : ℝ :=
  Real.sin ((radians lat2_deg - radians lat1_deg) / 2) *
      Real.sin ((radians lat2_deg - radians lat1_deg) / 2) +
    Real.cos (radians lat1_deg) * Real.cos (radians lat2_deg) *
      (Real.sin ((radians lon2_deg - radians lon1_deg) / 2) *
        Real.sin ((radians lon2_deg - radians lon1_deg) / 2))

theorem haversine_def (lat1 lon1 lat2 lon2 : ℝ) :
    haversine_distance lat1 lon1 lat2 lon2 =
      EARTH_RADIUS_METERS *
        (2 * atan2 (Real.sqrt (hav_a lat1 lon1 lat2 lon2))
          (Real.sqrt (1 - hav_a lat1 lon1 lat2 lon2))) := by
  unfold haversine_distance hav_a
  ring_nf

theorem haversine_nonneg (lat1 lon1 lat2 lon2 : ℝ) :
    0 ≤ haversine_distance lat1 lon1 lat2 lon2 := by
  rw [haversine_def]
  have h := atan2_nonneg (x := Real.sqrt (1 - hav_a lat1 lon1 lat2 lon2))
    (Real.sqrt_nonneg (hav_a lat1 lon1 lat2 lon2))
  have hR : (0 : ℝ) ≤ EARTH_RADIUS_METERS := by norm_num [EARTH_RADIUS_METERS]
  nlinarith

theorem haversine_self (lat lon : ℝ) : haversine_distance lat lon lat lon = 0 := by
  rw [haversine_def]
  have ha : hav_a lat lon lat lon = 0 := by
    unfold hav_a
    simp
  rw [ha]
  norm_num [atan2, Real.arctan_zero]

/-! ### Concrete evaluations at the equatorial one-degree pair -/

theorem radians_one_eq : radians 1 = Real.pi / 180 := by
  unfold radians
  ring

theorem sin_radians_one_pos : 0 < Real.sin (radians 1) := by
  rw [radians_one_eq]
  exact Real.sin_pos_of_pos_of_lt_pi (by positivity) (div_lt_self Real.pi_pos (by norm_num))

theorem degrees_pi_div_two : degrees (Real.pi / 2) = 90 := by
  unfold degrees
  have h := Real.pi_ne_zero
  field_simp
  ring

theorem degrees_neg_pi_div_two : degrees (-(Real.pi / 2)) = -90 := by
  unfold degrees
  have h := Real.pi_ne_zero
  field_simp
  ring

theorem pymod_ninety : pymod 90 360 = 90 := by
  have hfl : ⌊(90 : ℝ) / 360⌋ = 0 := by
    rw [Int.floor_eq_iff]
    constructor <;> norm_num
  unfold pymod
  rw [hfl]
  norm_num

theorem pymod_neg_ninety : pymod (-90) 360 = 270 := by
  have hfl : ⌊(-90 : ℝ) / 360⌋ = -1 := by
    rw [Int.floor_eq_iff]
    constructor <;> norm_num
  unfold pymod
  rw [hfl]
  norm_num

theorem bearing_east : initial_bearing 0 0 0 1 = 90 := by
  unfold initial_bearing
  rw [show ((1 : ℝ) - 0) = 1 by norm_num, show radians 0 = 0 by unfold radians; ring]
  simp only [Real.cos_zero, Real.sin_zero, mul_one, mul_zero, zero_mul, sub_zero, one_mul]
  rw [atan2_pos_zero sin_radians_one_pos, degrees_pi_div_two, pymod_ninety]

theorem bearing_west : initial_bearing 0 1 0 0 = 270 := by
  unfold initial_bearing
  rw [show ((0 : ℝ) - 1) = -1 by norm_num, show radians 0 = 0 by unfold radians; ring,
    show radians (-1) = -radians 1 by unfold radians; ring]
  simp only [Real.cos_zero, Real.sin_zero, Real.sin_neg, Real.cos_neg, mul_one, mul_zero,
    zero_mul, sub_zero, one_mul]
  rw [atan2_neg_zero (neg_lt_zero.mpr sin_radians_one_pos), degrees_neg_pi_div_two,
    pymod_neg_ninety]

theorem valid_00 : ValidPt ((0 : ℝ), (0 : ℝ)) := by
  constructor <;> constructor <;> norm_num

theorem valid_01 : ValidPt ((0 : ℝ), (1 : ℝ)) := by
  constructor <;> constructor <;> norm_num

theorem haversine_east_pos : 0 < haversine_distance 0 0 0 1 := by
  have hs : 0 < Real.sin (Real.pi / 360) :=
    Real.sin_pos_of_pos_of_lt_pi (by positivity) (div_lt_self Real.pi_pos (by norm_num))
  have hs1 : Real.sin (Real.pi / 360) < 1 := by
    have hlt := Real.sin_lt (x := Real.pi / 360) (by positivity)
    have hpi := Real.pi_le_four
    have hdiv : Real.pi / 360 < 1 := by
      rw [div_lt_one (by norm_num)]
      linarith
    linarith
  have ha : hav_a 0 0 0 1 = Real.sin (Real.pi / 360) * Real.sin (Real.pi / 360) := by
    unfold hav_a radians
    norm_num
    ring_nf
  have ha_pos : 0 < hav_a 0 0 0 1 := by rw [ha]; positivity
  have ha_lt : hav_a 0 0 0 1 < 1 := by rw [ha]; nlinarith
  rw [haversine_def]
  have h2 : 0 < atan2 (Real.sqrt (hav_a 0 0 0 1)) (Real.sqrt (1 - hav_a 0 0 0 1)) :=
    atan2_pos_of_pos (Real.sqrt_pos.mpr ha_pos) (Real.sqrt_pos.mpr (by linarith))
  have hR : (0 : ℝ) < EARTH_RADIUS_METERS := by norm_num [EARTH_RADIUS_METERS]
  positivity

theorem hausdorff_example_result :
    hausdorff_directed_naive [((0 : ℝ), (0 : ℝ)), ((0 : ℝ), (1 : ℝ))] [((0 : ℝ), (1 : ℝ))] =
      .ok ⟨haversine_distance 0 0 0 1, 0, 0⟩ := by
  have hp00 := point_from_any_eq_ok valid_00
  have hp01 := point_from_any_eq_ok valid_01
  have hnn := haversine_nonneg 0 0 0 1
  simp only [hausdorff_directed_naive, directed_hausdorff, hausdorff_search, nearest_search,
    nearest_loop, hausdorff_loop, hp00, hp01, haversine_self]
  rw [if_neg (not_lt.mpr hnn)]

/-! ### Pure mirrors of the Hausdorff loops

On validated points `_point_from_any` is the identity, so the searching loops
compute the following pure folds; the link lemmas below make this formal. -/

/-- The distance used by the Hausdorff search, as a function of two points. -/
noncomputable def dist2 (o c : Pt) : ℝ := haversine_distance o.1 o.2 c.1 c.2

/-- Pure mirror of `nearest_loop` (validation removed). -/
noncomputable def near_loop_pure (olat olon : ℝ) : List Pt → Nat → ℝ → ℤ → ℝ × ℤ
  | [], _, nearest, nearest_index => (nearest, nearest_index)
  | c :: cs, i, nearest, nearest_index =>
    if haversine_distance olat olon c.1 c.2 < nearest then
      near_loop_pure olat olon cs (i + 1) (haversine_distance olat olon c.1 c.2) (i : ℤ)
    else near_loop_pure olat olon cs (i + 1) nearest nearest_index

/-- Pure mirror of `nearest_search`. -/
noncomputable def near_search_pure (olat olon : ℝ) (b0 : Pt) (bs : List Pt) : ℝ × ℤ :=
  near_loop_pure olat olon bs 1 (haversine_distance olat olon b0.1 b0.2) 0

/-- Pure mirror of `hausdorff_loop`. -/
noncomputable def haus_loop_pure (b0 : Pt) (bs : List Pt) :
    List Pt → Nat → ℝ → ℤ → ℤ → ℝ × ℤ × ℤ
  | [], _, best, best_origin, best_candidate => (best, best_origin, best_candidate)
  | o :: os, i, best, best_origin, best_candidate =>
    if best < (near_search_pure o.1 o.2 b0 bs).1 then
      haus_loop_pure b0 bs os (i + 1) (near_search_pure o.1 o.2 b0 bs).1 (i : ℤ)
        (near_search_pure o.1 o.2 b0 bs).2
    else haus_loop_pure b0 bs os (i + 1) best best_origin best_candidate

/-- Pure mirror of `hausdorff_search`. -/
noncomputable def haus_search_pure (b0 : Pt) (bs : List Pt) (a0 : Pt) (rest : List Pt) :
    ℝ × ℤ × ℤ :=
  haus_loop_pure b0 bs rest 1 (near_search_pure a0.1 a0.2 b0 bs).1 0
    (near_search_pure a0.1 a0.2 b0 bs).2

theorem nearest_loop_eq_pure {cs : List Pt} (h : ∀ p ∈ cs, ValidPt p) (olat olon : ℝ)
    (i : ℕ) (n : ℝ) (ni : ℤ) :
    nearest_loop olat olon cs i n ni = .ok (near_loop_pure olat olon cs i n ni) := by
  induction cs generalizing i n ni with
  | nil => rfl
  | cons c cs ih =>
    have hc : ValidPt c := h c (List.mem_cons_self c cs)
    have hcs : ∀ p ∈ cs, ValidPt p := fun p hp => h p (List.mem_cons_of_mem c hp)
    simp only [nearest_loop, near_loop_pure, point_from_any_eq_ok hc]
    by_cases hlt : haversine_distance olat olon c.1 c.2 < n
    · rw [if_pos hlt, if_pos hlt]
      exact ih hcs (i + 1) _ (i : ℤ)
    · rw [if_neg hlt, if_neg hlt]
      exact ih hcs (i + 1) n ni

theorem nearest_search_eq_pure {b0 : Pt} {bs : List Pt} (hb0 : ValidPt b0)
    (hbs : ∀ p ∈ bs, ValidPt p) (olat olon : ℝ) :
    nearest_search olat olon b0 bs = .ok (near_search_pure olat olon b0 bs) := by
  simp only [nearest_search, near_search_pure, point_from_any_eq_ok hb0]
  exact nearest_loop_eq_pure hbs olat olon 1 _ 0

theorem hausdorff_loop_eq_pure {b0 : Pt} {bs : List Pt} {os : List Pt} (hb0 : ValidPt b0)
    (hbs : ∀ p ∈ bs, ValidPt p) (hos : ∀ p ∈ os, ValidPt p) (i : ℕ) (best : ℝ) (bo bc : ℤ) :
    hausdorff_loop b0 bs os i best bo bc = .ok (haus_loop_pure b0 bs os i best bo bc) := by
  induction os generalizing i best bo bc with
  | nil => rfl
  | cons o os ih =>
    have ho : ValidPt o := hos o (List.mem_cons_self o os)
    have hos' : ∀ p ∈ os, ValidPt p := fun p hp => hos p (List.mem_cons_of_mem o hp)
    simp only [hausdorff_loop, haus_loop_pure, point_from_any_eq_ok ho,
      nearest_search_eq_pure hb0 hbs]
    by_cases hlt : best < (near_search_pure o.1 o.2 b0 bs).1
    · rw [if_pos hlt, if_pos hlt]
      exact ih hos' (i + 1) _ (i : ℤ) _
    · rw [if_neg hlt, if_neg hlt]
      exact ih hos' (i + 1) best bo bc

theorem hausdorff_search_eq_pure {b0 : Pt} {bs : List Pt} {a0 : Pt} {rest : List Pt}
    (hb0 : ValidPt b0) (hbs : ∀ p ∈ bs, ValidPt p) (ha0 : ValidPt a0)
    (hrest : ∀ p ∈ rest, ValidPt p) :
    hausdorff_search b0 bs a0 rest = .ok (haus_search_pure b0 bs a0 rest) := by
  simp only [hausdorff_search, haus_search_pure, point_from_any_eq_ok ha0,
    nearest_search_eq_pure hb0 hbs]
  exact hausdorff_loop_eq_pure hb0 hbs hrest 1 _ 0 _

theorem directed_hausdorff_eq_pure {a0 : Pt} {rest : List Pt} {b0 : Pt} {bs : List Pt}
    (ha0 : ValidPt a0) (hrest : ∀ p ∈ rest, ValidPt p) (hb0 : ValidPt b0)
    (hbs : ∀ p ∈ bs, ValidPt p) :
    directed_hausdorff (a0 :: rest) (b0 :: bs) false =
      .ok ⟨(haus_search_pure b0 bs a0 rest).1, (haus_search_pure b0 bs a0 rest).2.1,
        (haus_search_pure b0 bs a0 rest).2.2⟩ := by
  simp only [directed_hausdorff, hausdorff_search_eq_pure hb0 hbs ha0 hrest]

/-! ### Specification of the pure loops -/

/-- `near_loop_pure` computes a running strict minimum: the result never
exceeds the accumulator or any remaining distance, and either nothing beat
the accumulator (state returned unchanged) or the result is the distance at
the first index attaining the minimum, every earlier index being strictly
worse. -/
theorem near_loop_pure_spec (olat olon : ℝ) (cs : List Pt) (i : ℕ) (n : ℝ) (ni : ℤ) :
    (near_loop_pure olat olon cs i n ni).1 ≤ n ∧
    (∀ k (hk : k < cs.length),
      (near_loop_pure olat olon cs i n ni).1 ≤
        haversine_distance olat olon (cs.get ⟨k, hk⟩).1 (cs.get ⟨k, hk⟩).2) ∧
    (((near_loop_pure olat olon cs i n ni).1 = n ∧
        (near_loop_pure olat olon cs i n ni).2 = ni) ∨
      ∃ k, ∃ hk : k < cs.length,
        (near_loop_pure olat olon cs i n ni).1 =
          haversine_distance olat olon (cs.get ⟨k, hk⟩).1 (cs.get ⟨k, hk⟩).2 ∧
        (near_loop_pure olat olon cs i n ni).2 = ((i + k : ℕ) : ℤ) ∧
        (near_loop_pure olat olon cs i n ni).1 < n ∧
        ∀ k' (hk' : k' < cs.length), k' < k →
          (near_loop_pure olat olon cs i n ni).1 <
            haversine_distance olat olon (cs.get ⟨k', hk'⟩).1 (cs.get ⟨k', hk'⟩).2) := by
  induction cs generalizing i n ni with
  | nil =>
    refine ⟨le_refl _, ?_, Or.inl ⟨rfl, rfl⟩⟩
    intro k hk
    exact absurd hk (Nat.not_lt_zero k)
  | cons c cs ih =>
    by_cases hlt : haversine_distance olat olon c.1 c.2 < n
    · have hred : near_loop_pure olat olon (c :: cs) i n ni =
          near_loop_pure olat olon cs (i + 1) (haversine_distance olat olon c.1 c.2) (i : ℤ) := by
        simp only [near_loop_pure, if_pos hlt]
      rw [hred]
      obtain ⟨h1, h2, h3⟩ := ih (i + 1) (haversine_distance olat olon c.1 c.2) (i : ℤ)
      refine ⟨h1.trans hlt.le, ?_, ?_⟩
      · intro k hk
        match k, hk with
        | 0, _ => exact h1
        | k + 1, hk => exact h2 k (Nat.lt_of_succ_lt_succ hk)
      · rcases h3 with ⟨he, hni⟩ | ⟨k, hk, he, hidx, hlt2, hearly⟩
        · refine Or.inr ⟨0, Nat.succ_pos _, he, ?_, by rw [he]; exact hlt, ?_⟩
          · rw [hni]
            simp
          · intro k' hk' hk0
            exact absurd hk0 (Nat.not_lt_zero k')
        · refine Or.inr ⟨k + 1, Nat.succ_lt_succ hk, he, ?_, hlt2.trans hlt, ?_⟩
          · rw [hidx]
            push_cast
            ring
          · intro k' hk' hk1
            match k', hk', hk1 with
            | 0, _, _ => exact hlt2
            | k' + 1, hk', hk1 =>
              exact hearly k' (Nat.lt_of_succ_lt_succ hk') (Nat.lt_of_succ_lt_succ hk1)
    · have hred : near_loop_pure olat olon (c :: cs) i n ni =
          near_loop_pure olat olon cs (i + 1) n ni := by
        simp only [near_loop_pure, if_neg hlt]
      rw [hred]
      obtain ⟨h1, h2, h3⟩ := ih (i + 1) n ni
      have hge : n ≤ haversine_distance olat olon c.1 c.2 := not_lt.mp hlt
      refine ⟨h1, ?_, ?_⟩
      · intro k hk
        match k, hk with
        | 0, _ => exact h1.trans hge
        | k + 1, hk => exact h2 k (Nat.lt_of_succ_lt_succ hk)
      · rcases h3 with ⟨he, hni⟩ | ⟨k, hk, he, hidx, hlt2, hearly⟩
        · exact Or.inl ⟨he, hni⟩
        · refine Or.inr ⟨k + 1, Nat.succ_lt_succ hk, he, ?_, hlt2, ?_⟩
          · rw [hidx]
            push_cast
            ring
          · intro k' hk' hk1
            match k', hk', hk1 with
            | 0, _, _ => exact lt_of_lt_of_le hlt2 hge
            | k' + 1, hk', hk1 =>
              exact hearly k' (Nat.lt_of_succ_lt_succ hk') (Nat.lt_of_succ_lt_succ hk1)

/-- `near_search_pure` returns the minimum distance from the origin to the
non-empty candidate list `b0 :: bs`, together with the first index attaining
that minimum. -/
theorem near_search_pure_spec (olat olon : ℝ) (b0 : Pt) (bs : List Pt) :
    ∃ j, ∃ hj : j < (b0 :: bs).length,
      (near_search_pure olat olon b0 bs).2 = (j : ℤ) ∧
      (near_search_pure olat olon b0 bs).1 =
        haversine_distance olat olon ((b0 :: bs).get ⟨j, hj⟩).1 ((b0 :: bs).get ⟨j, hj⟩).2 ∧
      (∀ k (hk : k < (b0 :: bs).length),
        (near_search_pure olat olon b0 bs).1 ≤
          haversine_distance olat olon ((b0 :: bs).get ⟨k, hk⟩).1 ((b0 :: bs).get ⟨k, hk⟩).2) ∧
      (∀ k' (hk' : k' < (b0 :: bs).length), k' < j →
        (near_search_pure olat olon b0 bs).1 <
          haversine_distance olat olon ((b0 :: bs).get ⟨k', hk'⟩).1 ((b0 :: bs).get ⟨k', hk'⟩).2) := by
  simp only [near_search_pure]
  obtain ⟨h1, h2, h3⟩ :=
    near_loop_pure_spec olat olon bs 1 (haversine_distance olat olon b0.1 b0.2) 0
  rcases h3 with ⟨he, hni⟩ | ⟨k, hk, he, hidx, hlt2, hearly⟩
  · refine ⟨0, Nat.succ_pos _, by simpa using hni, he, ?_, ?_⟩
    · intro k hk
      match k, hk with
      | 0, _ => exact le_of_eq he
      | k + 1, hk => exact h2 k (Nat.lt_of_succ_lt_succ hk)
    · intro k' hk' hk0
      exact absurd hk0 (Nat.not_lt_zero k')
  · refine ⟨k + 1, Nat.succ_lt_succ hk, ?_, he, ?_, ?_⟩
    · rw [hidx]
      push_cast
      ring
    · intro k hk
      match k, hk with
      | 0, _ => exact hlt2.le
      | k + 1, hk => exact h2 k (Nat.lt_of_succ_lt_succ hk)
    · intro k' hk' hk1
      match k', hk', hk1 with
      | 0, _, _ => exact hlt2
      | k' + 1, hk', hk1 =>
        exact hearly k' (Nat.lt_of_succ_lt_succ hk') (Nat.lt_of_succ_lt_succ hk1)

/-- `haus_loop_pure` computes a running strict maximum of the per-origin
minima, keeping the first origin that attains it (and that origin's chosen
candidate index). -/
theorem haus_loop_pure_spec (b0 : Pt) (bs : List Pt) (os : List Pt) (i : ℕ) (best : ℝ)
    (bo bc : ℤ) :
    best ≤ (haus_loop_pure b0 bs os i best bo bc).1 ∧
    (∀ k (hk : k < os.length),
      (near_search_pure (os.get ⟨k, hk⟩).1 (os.get ⟨k, hk⟩).2 b0 bs).1 ≤
        (haus_loop_pure b0 bs os i best bo bc).1) ∧
    (((haus_loop_pure b0 bs os i best bo bc).1 = best ∧
        (haus_loop_pure b0 bs os i best bo bc).2.1 = bo ∧
        (haus_loop_pure b0 bs os i best bo bc).2.2 = bc) ∨
      ∃ k, ∃ hk : k < os.length,
        (haus_loop_pure b0 bs os i best bo bc).1 =
          (near_search_pure (os.get ⟨k, hk⟩).1 (os.get ⟨k, hk⟩).2 b0 bs).1 ∧
        (haus_loop_pure b0 bs os i best bo bc).2.1 = ((i + k : ℕ) : ℤ) ∧
        (haus_loop_pure b0 bs os i best bo bc).2.2 =
          (near_search_pure (os.get ⟨k, hk⟩).1 (os.get ⟨k, hk⟩).2 b0 bs).2 ∧
        best < (haus_loop_pure b0 bs os i best bo bc).1 ∧
        ∀ k' (hk' : k' < os.length), k' < k →
          (near_search_pure (os.get ⟨k', hk'⟩).1 (os.get ⟨k', hk'⟩).2 b0 bs).1 <
            (haus_loop_pure b0 bs os i best bo bc).1) := by
  induction os generalizing i best bo bc with
  | nil =>
    refine ⟨le_refl _, ?_, Or.inl ⟨rfl, rfl, rfl⟩⟩
    intro k hk
    exact absurd hk (Nat.not_lt_zero k)
  | cons o os ih =>
    by_cases hlt : best < (near_search_pure o.1 o.2 b0 bs).1
    · have hred : haus_loop_pure b0 bs (o :: os) i best bo bc =
          haus_loop_pure b0 bs os (i + 1) (near_search_pure o.1 o.2 b0 bs).1 (i : ℤ)
            (near_search_pure o.1 o.2 b0 bs).2 := by
        simp only [haus_loop_pure, if_pos hlt]
      rw [hred]
      obtain ⟨h1, h2, h3⟩ := ih (i + 1) (near_search_pure o.1 o.2 b0 bs).1 (i : ℤ)
        (near_search_pure o.1 o.2 b0 bs).2
      refine ⟨hlt.le.trans h1, ?_, ?_⟩
      · intro k hk
        match k, hk with
        | 0, _ => exact h1
        | k + 1, hk => exact h2 k (Nat.lt_of_succ_lt_succ hk)
      · rcases h3 with ⟨he, hbo, hbc⟩ | ⟨k, hk, he, hbo, hbc, hlt2, hearly⟩
        · refine Or.inr ⟨0, Nat.succ_pos _, he, ?_, hbc, by rw [he]; exact hlt, ?_⟩
          · rw [hbo]
            simp
          · intro k' hk' hk0
            exact absurd hk0 (Nat.not_lt_zero k')
        · refine Or.inr ⟨k + 1, Nat.succ_lt_succ hk, he, ?_, hbc, hlt.trans hlt2, ?_⟩
          · rw [hbo]
            push_cast
            ring
          · intro k' hk' hk1
            match k', hk', hk1 with
            | 0, _, _ => exact hlt2
            | k' + 1, hk', hk1 =>
              exact hearly k' (Nat.lt_of_succ_lt_succ hk') (Nat.lt_of_succ_lt_succ hk1)
    · have hred : haus_loop_pure b0 bs (o :: os) i best bo bc =
          haus_loop_pure b0 bs os (i + 1) best bo bc := by
        simp only [haus_loop_pure, if_neg hlt]
      rw [hred]
      obtain ⟨h1, h2, h3⟩ := ih (i + 1) best bo bc
      have hge : (near_search_pure o.1 o.2 b0 bs).1 ≤ best := not_lt.mp hlt
      refine ⟨h1, ?_, ?_⟩
      · intro k hk
        match k, hk with
        | 0, _ => exact hge.trans h1
        | k + 1, hk => exact h2 k (Nat.lt_of_succ_lt_succ hk)
      · rcases h3 with ⟨he, hbo, hbc⟩ | ⟨k, hk, he, hbo, hbc, hlt2, hearly⟩
        · exact Or.inl ⟨he, hbo, hbc⟩
        · refine Or.inr ⟨k + 1, Nat.succ_lt_succ hk, he, ?_, hbc, hlt2, ?_⟩
          · rw [hbo]
            push_cast
            ring
          · intro k' hk' hk1
            match k', hk', hk1 with
            | 0, _, _ => exact lt_of_le_of_lt hge hlt2
            | k' + 1, hk', hk1 =>
              exact hearly k' (Nat.lt_of_succ_lt_succ hk') (Nat.lt_of_succ_lt_succ hk1)

/-- Master specification of `_directed_hausdorff` on non-empty validated
inputs: the search succeeds, its witness indices are in range, its distance
is realized by the witness pair, equals the minimum over `B` for the witness
origin, is an upper bound for every origin's minimum, the witness origin is
the first origin realizing the maximum, and the witness candidate is the
first candidate attaining the per-origin minimum. -/
theorem directed_hausdorff_spec (a0 : Pt) (rest : List Pt) (b0 : Pt) (bs : List Pt)
    (ha0 : ValidPt a0) (hrest : ∀ p ∈ rest, ValidPt p) (hb0 : ValidPt b0)
    (hbs : ∀ p ∈ bs, ValidPt p) :
    ∃ M : ℝ, ∃ oi ci : ℕ, ∃ hoi : oi < (a0 :: rest).length, ∃ hci : ci < (b0 :: bs).length,
      directed_hausdorff (a0 :: rest) (b0 :: bs) false = .ok ⟨M, (oi : ℤ), (ci : ℤ)⟩ ∧
      M = dist2 ((a0 :: rest).get ⟨oi, hoi⟩) ((b0 :: bs).get ⟨ci, hci⟩) ∧
      (∀ j (hj : j < (b0 :: bs).length),
        M ≤ dist2 ((a0 :: rest).get ⟨oi, hoi⟩) ((b0 :: bs).get ⟨j, hj⟩)) ∧
      (∀ j (hj : j < (b0 :: bs).length), j < ci →
        M < dist2 ((a0 :: rest).get ⟨oi, hoi⟩) ((b0 :: bs).get ⟨j, hj⟩)) ∧
      (∀ k (hk : k < (a0 :: rest).length), ∃ j, ∃ hj : j < (b0 :: bs).length,
        dist2 ((a0 :: rest).get ⟨k, hk⟩) ((b0 :: bs).get ⟨j, hj⟩) ≤ M) ∧
      (∀ k (hk : k < (a0 :: rest).length), k < oi → ∃ j, ∃ hj : j < (b0 :: bs).length,
        dist2 ((a0 :: rest).get ⟨k, hk⟩) ((b0 :: bs).get ⟨j, hj⟩) < M) := by
  have hlink := directed_hausdorff_eq_pure ha0 hrest hb0 hbs
  simp only [haus_search_pure] at hlink
  have horig : ∀ o : Pt, ∃ j, ∃ hj : j < (b0 :: bs).length,
      dist2 o ((b0 :: bs).get ⟨j, hj⟩) = (near_search_pure o.1 o.2 b0 bs).1 := by
    intro o
    obtain ⟨j, hj, _, hval, _, _⟩ := near_search_pure_spec o.1 o.2 b0 bs
    exact ⟨j, hj, hval.symm⟩
  obtain ⟨g1, g2, g3⟩ := haus_loop_pure_spec b0 bs rest 1
    (near_search_pure a0.1 a0.2 b0 bs).1 0 (near_search_pure a0.1 a0.2 b0 bs).2
  rcases g3 with ⟨he, hbo, hbc⟩ | ⟨k, hk, he, hbo, hbc, hlt2, hearly⟩
  · -- the first origin `a0` already realizes the maximum
    obtain ⟨j, hj, hidx, hval, hmin, hfirst⟩ := near_search_pure_spec a0.1 a0.2 b0 bs
    refine ⟨(haus_loop_pure b0 bs rest 1 (near_search_pure a0.1 a0.2 b0 bs).1 0
      (near_search_pure a0.1 a0.2 b0 bs).2).1, 0, j, Nat.succ_pos _, hj, ?_, ?_, ?_, ?_, ?_, ?_⟩
    · rw [hlink, hbo, hbc, hidx]
      norm_num
    · rw [he]
      exact hval
    · intro j' hj'
      rw [he]
      exact hmin j' hj'
    · intro j' hj' hjlt
      rw [he]
      exact hfirst j' hj' hjlt
    · intro k hk
      match k, hk with
      | 0, _ =>
        refine ⟨j, hj, ?_⟩
        rw [he]
        exact le_of_eq hval.symm
      | k + 1, hk =>
        obtain ⟨jk, hjk, hvk⟩ := horig (rest.get ⟨k, Nat.lt_of_succ_lt_succ hk⟩)
        exact ⟨jk, hjk, hvk.trans_le (g2 k (Nat.lt_of_succ_lt_succ hk))⟩
    · intro k hk hk0
      exact absurd hk0 (Nat.not_lt_zero k)
  · -- a later origin `rest.get k` realizes the maximum
    obtain ⟨j, hj, hidx, hval, hmin, hfirst⟩ :=
      near_search_pure_spec (rest.get ⟨k, hk⟩).1 (rest.get ⟨k, hk⟩).2 b0 bs
    refine ⟨(haus_loop_pure b0 bs rest 1 (near_search_pure a0.1 a0.2 b0 bs).1 0
      (near_search_pure a0.1 a0.2 b0 bs).2).1, k + 1, j, Nat.succ_lt_succ hk, hj, ?_, ?_,
      ?_, ?_, ?_, ?_⟩
    · rw [hlink, hbo, hbc, hidx, Nat.add_comm 1 k]
    · rw [he]
      exact hval
    · intro j' hj'
      rw [he]
      exact hmin j' hj'
    · intro j' hj' hjlt
      rw [he]
      exact hfirst j' hj' hjlt
    · intro k' hk'
      match k', hk' with
      | 0, _ =>
        obtain ⟨ja, hja, hva⟩ := horig a0
        exact ⟨ja, hja, hva.trans_le hlt2.le⟩
      | k' + 1, hk' =>
        obtain ⟨jk, hjk, hvk⟩ := horig (rest.get ⟨k', Nat.lt_of_succ_lt_succ hk'⟩)
        exact ⟨jk, hjk, hvk.trans_le (g2 k' (Nat.lt_of_succ_lt_succ hk'))⟩
    · intro k' hk' hklt
      match k', hk', hklt with
      | 0, _, _ =>
        obtain ⟨ja, hja, hva⟩ := horig a0
        exact ⟨ja, hja, hva.trans_lt hlt2⟩
      | k' + 1, hk', hklt =>
        obtain ⟨jk, hjk, hvk⟩ := horig (rest.get ⟨k', Nat.lt_of_succ_lt_succ hk'⟩)
        exact ⟨jk, hjk, hvk.trans_lt (hearly k' (Nat.lt_of_succ_lt_succ hk') (Nat.lt_of_succ_lt_succ hklt))⟩

/-- Both bearing bounds of `initial_bearing` follow from its trailing
`% 360.0` normalization. -/
theorem initial_bearing_bounds (a b c d : ℝ) :
    0 ≤ initial_bearing a b c d ∧ initial_bearing a b c d < 360 := by
  unfold initial_bearing
  exact ⟨pymod_nonneg _ (by norm_num), pymod_lt _ (by norm_num)⟩

/-- `BoundingBox.__init__` rejects reversed longitude bounds whenever the
four coordinates pass the range checks and the latitude ordering check. -/
theorem mkBoundingBox_lon_wrap_error (mla bla mlo blo : ℝ)
    (h1 : -90 ≤ mla) (h2 : mla ≤ 90) (h3 : -90 ≤ bla) (h4 : bla ≤ 90)
    (h5 : -180 ≤ mlo) (h6 : mlo ≤ 180) (h7 : -180 ≤ blo) (h8 : blo ≤ 180)
    (hlat : mla ≤ bla) (hlon : blo < mlo) :
    mkBoundingBox mla bla mlo blo = .error .invalidGeometry := by
  unfold mkBoundingBox
  rw [coerce_latitude_eq_ok h1 h2, coerce_latitude_eq_ok h3 h4,
    coerce_longitude_eq_ok h5 h6, coerce_longitude_eq_ok h7 h8]
  simp only [if_neg (not_lt.mpr hlat), if_pos hlon]

/-! ### Claim theorems -/

/-- C1 (counterexample): on `A = [(0,0), (0,1)]`, `B = [(0,1)]` the directed
Hausdorff search does not return distance `0.0` with witness
`(origin_index = 1, candidate_index = 0)`: the maximum of the per-origin
minima is realized by origin `0`, at the positive distance from `(0,0)` to
`(0,1)`. -/
theorem hausdorff_directed_example_counterexample :
    hausdorff_directed_naive [((0 : ℝ), (0 : ℝ)), ((0 : ℝ), (1 : ℝ))] [((0 : ℝ), (1 : ℝ))] ≠
      .ok ⟨0, 1, 0⟩ := by
  rw [hausdorff_example_result]
  intro h
  simp only [Except.ok.injEq, HausdorffDirectedWitness.mk.injEq] at h
  exact absurd h.2.1 (by norm_num)

/-- C1 (amended): on `A = [(0,0), (0,1)]`, `B = [(0,1)]` the directed
Hausdorff search returns the (positive) haversine distance from `(0,0)` to
`(0,1)` — about `111195.08` metres — with witness `origin_index = 0`,
`candidate_index = 0`. -/
theorem hausdorff_directed_example_amended :
    hausdorff_directed_naive [((0 : ℝ), (0 : ℝ)), ((0 : ℝ), (1 : ℝ))] [((0 : ℝ), (1 : ℝ))] =
        .ok ⟨haversine_distance 0 0 0 1, 0, 0⟩ ∧
      0 < haversine_distance 0 0 0 1 :=
  ⟨hausdorff_example_result, haversine_east_pos⟩

/-- C2: evaluating the pure spherical-bearings kernel at `Point(0,0)`,
`Point(0,1)` yields initial bearing `90.0` but final bearing `270.0`: the
kernel returns the raw initial bearing of the reverse path, which points
back west, instead of the forward azimuth `90.0` at arrival that the
repository's own test of the public operation
(`test_ops.py::test_geodesic_with_bearings_returns_distance_and_angles`)
expects. -/
theorem bearings_east_evaluation :
    geodesic_with_bearings_sphere ((0 : ℝ), (0 : ℝ)) ((0 : ℝ), (1 : ℝ)) =
      .ok ⟨haversine_distance 0 0 0 1, 90, 270⟩ := by
  simp only [geodesic_with_bearings_sphere, point_from_any_eq_ok valid_00,
    point_from_any_eq_ok valid_01]
  rw [bearing_east, bearing_west]

/-- C3: for every pair of valid points the spherical bearings kernel
succeeds, and its final bearing is exactly the initial bearing of the
reverse path (destination to origin), which lies in `[0, 360)` thanks to
the `% 360.0` normalization. -/
theorem final_bearing_is_reverse_initial (o d : Pt) (ho : ValidPt o) (hd : ValidPt d) :
    ∃ r, geodesic_with_bearings_sphere o d = .ok r ∧
      r.final_bearing_deg = initial_bearing d.1 d.2 o.1 o.2 ∧
      0 ≤ r.final_bearing_deg ∧ r.final_bearing_deg < 360 := by
  refine ⟨⟨haversine_distance o.1 o.2 d.1 d.2, initial_bearing o.1 o.2 d.1 d.2,
    initial_bearing d.1 d.2 o.1 o.2⟩, ?_, rfl, ?_, ?_⟩
  · simp only [geodesic_with_bearings_sphere, point_from_any_eq_ok ho, point_from_any_eq_ok hd]
  · exact (initial_bearing_bounds d.1 d.2 o.1 o.2).1
  · exact (initial_bearing_bounds d.1 d.2 o.1 o.2).2

/-- Witness for C3 at the concrete pair `(0,0)`, `(0,1)`. -/
theorem final_bearing_is_reverse_initial_witness :
    ValidPt ((0 : ℝ), (0 : ℝ)) ∧ ValidPt ((0 : ℝ), (1 : ℝ)) ∧
      ∃ r, geodesic_with_bearings_sphere ((0 : ℝ), (0 : ℝ)) ((0 : ℝ), (1 : ℝ)) = .ok r ∧
        r.final_bearing_deg = initial_bearing 0 1 0 0 ∧
        0 ≤ r.final_bearing_deg ∧ r.final_bearing_deg < 360 :=
  ⟨valid_00, valid_01, final_bearing_is_reverse_initial _ _ valid_00 valid_01⟩

/-- C4 (counterexample): an empty first set makes the naive directed
Hausdorff kernel raise `InvalidGeometryError`, not `EmptyPointSetError`. -/
theorem empty_set_error_kind_counterexample :
    hausdorff_directed_naive ([] : List Pt) [((0 : ℝ), (0 : ℝ))] = .error .invalidGeometry ∧
      (Except.error GeoErr.invalidGeometry : Except GeoErr HausdorffDirectedWitness) ≠
        .error .emptyPointSet := by
  refine ⟨rfl, ?_⟩
  intro h
  simp only [Except.error.injEq] at h
  exact absurd h (by decide)

/-- C4 (amended): the naive directed Hausdorff kernel fails with
`InvalidGeometryError` whenever either side is empty (the default
`allow_empty=False` policy); it never returns a result for an empty side. -/
theorem hausdorff_empty_side_errors (a b : List Pt) (h : a = [] ∨ b = []) :
    hausdorff_directed_naive a b = .error .invalidGeometry := by
  rcases h with h | h
  · subst h
    rfl
  · subst h
    cases a with
    | nil => rfl
    | cons a0 rest => rfl

/-- Witness for C4 at `A = []`, `B = [(0,0)]`. -/
theorem hausdorff_empty_side_errors_witness :
    (([] : List Pt) = [] ∨ [((0 : ℝ), (0 : ℝ))] = []) ∧
      hausdorff_directed_naive ([] : List Pt) [((0 : ℝ), (0 : ℝ))] =
        .error .invalidGeometry :=
  ⟨Or.inl rfl, hausdorff_empty_side_errors [] [((0 : ℝ), (0 : ℝ))] (Or.inl rfl)⟩

/-- C5 (counterexample): `BoundingBox` construction with `min_lon > max_lon`
fails at the concrete antimeridian-wrapping input `(0, 0, 170, -170)`, and
no input with in-range coordinates, ordered latitudes and `min_lon >
max_lon` ever constructs a box. -/
theorem bbox_antimeridian_counterexample :
    mkBoundingBox 0 0 170 (-170) = .error .invalidGeometry ∧
      ¬ ∃ (mla bla mlo blo : ℝ) (box : BoundingBox),
        (-90 ≤ mla ∧ mla ≤ 90 ∧ -90 ≤ bla ∧ bla ≤ 90 ∧ -180 ≤ mlo ∧ mlo ≤ 180 ∧
          -180 ≤ blo ∧ blo ≤ 180 ∧ mla ≤ bla ∧ blo < mlo) ∧
        mkBoundingBox mla bla mlo blo = .ok box := by
  constructor
  · exact mkBoundingBox_lon_wrap_error 0 0 170 (-170) (by norm_num) (by norm_num)
      (by norm_num) (by norm_num) (by norm_num) (by norm_num) (by norm_num) (by norm_num)
      (by norm_num) (by norm_num)
  · rintro ⟨mla, bla, mlo, blo, box, ⟨h1, h2, h3, h4, h5, h6, h7, h8, hlat, hlon⟩, hok⟩
    rw [mkBoundingBox_lon_wrap_error mla bla mlo blo h1 h2 h3 h4 h5 h6 h7 h8 hlat hlon] at hok
    exact Except.noConfusion hok

/-- C5 (amended): `BoundingBox` construction rejects `min_lon > max_lon`:
for every input with valid latitudes (`min_lat ≤ max_lat`) and in-range
longitudes with `min_lon > max_lon`, construction raises
`InvalidGeometryError`; an antimeridian-wrapping box is never constructed. -/
theorem bbox_antimeridian_rejected (mla bla mlo blo : ℝ)
    (h1 : -90 ≤ mla) (h2 : mla ≤ 90) (h3 : -90 ≤ bla) (h4 : bla ≤ 90)
    (h5 : -180 ≤ mlo) (h6 : mlo ≤ 180) (h7 : -180 ≤ blo) (h8 : blo ≤ 180)
    (hlat : mla ≤ bla) (hlon : blo < mlo) :
    mkBoundingBox mla bla mlo blo = .error .invalidGeometry :=
  mkBoundingBox_lon_wrap_error mla bla mlo blo h1 h2 h3 h4 h5 h6 h7 h8 hlat hlon

/-- Witness for C5 at the concrete wrapping input `(0, 0, 170, -170)`. -/
theorem bbox_antimeridian_rejected_witness :
    ((-90 : ℝ) ≤ 0 ∧ (0 : ℝ) ≤ 90 ∧ (-180 : ℝ) ≤ 170 ∧ (170 : ℝ) ≤ 180 ∧
        (-180 : ℝ) ≤ -170 ∧ (-170 : ℝ) ≤ 180 ∧ (-170 : ℝ) < 170) ∧
      mkBoundingBox 0 0 170 (-170) = .error .invalidGeometry :=
  ⟨⟨by norm_num, by norm_num, by norm_num, by norm_num, by norm_num, by norm_num, by norm_num⟩,
    bbox_antimeridian_rejected 0 0 170 (-170) (by norm_num) (by norm_num) (by norm_num)
      (by norm_num) (by norm_num) (by norm_num) (by norm_num) (by norm_num) (by norm_num)
      (by norm_num)⟩

/-- On non-empty validated inputs the directed search succeeds. -/
theorem directed_hausdorff_ok {a b : List Pt} (ha : a ≠ []) (hb : b ≠ [])
    (hva : ∀ p ∈ a, ValidPt p) (hvb : ∀ p ∈ b, ValidPt p) :
    ∃ w, directed_hausdorff a b false = .ok w := by
  cases a with
  | nil => exact absurd rfl ha
  | cons a0 rest =>
    cases b with
    | nil => exact absurd rfl hb
    | cons b0 bs =>
      obtain ⟨M, oi, ci, hoi, hci, heq, -⟩ := directed_hausdorff_spec a0 rest b0 bs
        (hva a0 (List.mem_cons_self _ _)) (fun p hp => hva p (List.mem_cons_of_mem _ hp))
        (hvb b0 (List.mem_cons_self _ _)) (fun p hp => hvb p (List.mem_cons_of_mem _ hp))
      exact ⟨_, heq⟩

/-- C6: on non-empty validated inputs, the symmetric Hausdorff result is
built from the two directed results, with distance the maximum of the two
directed distances and exactly those two witnesses carried forward. -/
theorem hausdorff_symmetric_max (a b : List Pt) (ha : a ≠ []) (hb : b ≠ [])
    (hva : ∀ p ∈ a, ValidPt p) (hvb : ∀ p ∈ b, ValidPt p) :
    ∃ f r, hausdorff_directed_naive a b = .ok f ∧ hausdorff_directed_naive b a = .ok r ∧
      hausdorff_naive a b = .ok ⟨max f.distance_m r.distance_m, f, r⟩ := by
  obtain ⟨f, hf⟩ := directed_hausdorff_ok ha hb hva hvb
  obtain ⟨r, hr⟩ := directed_hausdorff_ok hb ha hvb hva
  refine ⟨f, r, hf, hr, ?_⟩
  have hmax : (if f.distance_m ≥ r.distance_m then f.distance_m else r.distance_m) =
      max f.distance_m r.distance_m := by
    by_cases hge : f.distance_m ≥ r.distance_m
    · rw [if_pos hge, max_eq_left hge]
    · rw [if_neg hge, max_eq_right (le_of_lt (not_le.mp hge))]
  simp only [hausdorff_naive, hf, hr]
  rw [hmax]

/-- Witness for C6 at `A = [(0,0)]`, `B = [(0,1)]`. -/
theorem hausdorff_symmetric_max_witness :
    ([((0 : ℝ), (0 : ℝ))] ≠ ([] : List Pt)) ∧ ([((0 : ℝ), (1 : ℝ))] ≠ ([] : List Pt)) ∧
      ∃ f r, hausdorff_directed_naive [((0 : ℝ), (0 : ℝ))] [((0 : ℝ), (1 : ℝ))] = .ok f ∧
        hausdorff_directed_naive [((0 : ℝ), (1 : ℝ))] [((0 : ℝ), (0 : ℝ))] = .ok r ∧
        hausdorff_naive [((0 : ℝ), (0 : ℝ))] [((0 : ℝ), (1 : ℝ))] =
          .ok ⟨max f.distance_m r.distance_m, f, r⟩ :=
  ⟨by simp, by simp,
    hausdorff_symmetric_max _ _ (by simp) (by simp)
      (fun p hp => (List.mem_singleton.mp hp) ▸ valid_00)
      (fun p hp => (List.mem_singleton.mp hp) ▸ valid_01)⟩

/-- C7: on non-empty validated inputs the returned witness realizes the
directed Hausdorff distance with the smallest realizing origin index (every
earlier origin has some strictly closer candidate), and for that origin the
candidate index is the first one attaining the per-origin minimum; the
search is a pure function of its inputs, so identical inputs yield the
identical witness. -/
theorem hausdorff_witness_tie_break (a b : List Pt) (ha : a ≠ []) (hb : b ≠ [])
    (hva : ∀ p ∈ a, ValidPt p) (hvb : ∀ p ∈ b, ValidPt p) :
    ∃ w, hausdorff_directed_naive a b = .ok w ∧
      ∃ oi ci : ℕ, ∃ hoi : oi < a.length, ∃ hci : ci < b.length,
        w.origin_index = (oi : ℤ) ∧ w.candidate_index = (ci : ℤ) ∧
        w.distance_m = dist2 (a.get ⟨oi, hoi⟩) (b.get ⟨ci, hci⟩) ∧
        (∀ j (hj : j < b.length), w.distance_m ≤ dist2 (a.get ⟨oi, hoi⟩) (b.get ⟨j, hj⟩)) ∧
        (∀ j (hj : j < b.length), j < ci →
          w.distance_m < dist2 (a.get ⟨oi, hoi⟩) (b.get ⟨j, hj⟩)) ∧
        (∀ k (hk : k < a.length), k < oi → ∃ j, ∃ hj : j < b.length,
          dist2 (a.get ⟨k, hk⟩) (b.get ⟨j, hj⟩) < w.distance_m) := by
  cases a with
  | nil => exact absurd rfl ha
  | cons a0 rest =>
    cases b with
    | nil => exact absurd rfl hb
    | cons b0 bs =>
      obtain ⟨M, oi, ci, hoi, hci, heq, hreal, hmin, hfirst, -, hearly⟩ :=
        directed_hausdorff_spec a0 rest b0 bs
          (hva a0 (List.mem_cons_self _ _)) (fun p hp => hva p (List.mem_cons_of_mem _ hp))
          (hvb b0 (List.mem_cons_self _ _)) (fun p hp => hvb p (List.mem_cons_of_mem _ hp))
      exact ⟨⟨M, (oi : ℤ), (ci : ℤ)⟩, heq, oi, ci, hoi, hci, rfl, rfl, hreal, hmin, hfirst,
        hearly⟩

/-- Witness for C7 at `A = [(0,0)]`, `B = [(0,1)]`. -/
theorem hausdorff_witness_tie_break_witness :
    ([((0 : ℝ), (0 : ℝ))] ≠ ([] : List Pt)) ∧ ([((0 : ℝ), (1 : ℝ))] ≠ ([] : List Pt)) ∧
      ∃ w, hausdorff_directed_naive [((0 : ℝ), (0 : ℝ))] [((0 : ℝ), (1 : ℝ))] = .ok w ∧
        ∃ oi ci : ℕ, ∃ hoi : oi < [((0 : ℝ), (0 : ℝ))].length,
          ∃ hci : ci < [((0 : ℝ), (1 : ℝ))].length,
          w.origin_index = (oi : ℤ) ∧ w.candidate_index = (ci : ℤ) ∧
          w.distance_m =
            dist2 ([((0 : ℝ), (0 : ℝ))].get ⟨oi, hoi⟩) ([((0 : ℝ), (1 : ℝ))].get ⟨ci, hci⟩) ∧
          (∀ j (hj : j < [((0 : ℝ), (1 : ℝ))].length),
            w.distance_m ≤
              dist2 ([((0 : ℝ), (0 : ℝ))].get ⟨oi, hoi⟩) ([((0 : ℝ), (1 : ℝ))].get ⟨j, hj⟩)) ∧
          (∀ j (hj : j < [((0 : ℝ), (1 : ℝ))].length), j < ci →
            w.distance_m <
              dist2 ([((0 : ℝ), (0 : ℝ))].get ⟨oi, hoi⟩) ([((0 : ℝ), (1 : ℝ))].get ⟨j, hj⟩)) ∧
          (∀ k (hk : k < [((0 : ℝ), (0 : ℝ))].length), k < oi →
            ∃ j, ∃ hj : j < [((0 : ℝ), (1 : ℝ))].length,
              dist2 ([((0 : ℝ), (0 : ℝ))].get ⟨k, hk⟩) ([((0 : ℝ), (1 : ℝ))].get ⟨j, hj⟩) <
                w.distance_m) :=
  ⟨by simp, by simp,
    hausdorff_witness_tie_break _ _ (by simp) (by simp)
      (fun p hp => (List.mem_singleton.mp hp) ▸ valid_00)
      (fun p hp => (List.mem_singleton.mp hp) ▸ valid_01)⟩

/-- C10: on non-empty validated inputs the returned witness has in-range
indices, its distance is the haversine distance of the witness pair, that
distance is the minimum over `B` of the distance from the witness origin,
and it is the maximum over all origins of the per-origin minima (each
origin's minimum is at most the result, and the witness origin attains
it). -/
theorem hausdorff_witness_realization (a b : List Pt) (ha : a ≠ []) (hb : b ≠ [])
    (hva : ∀ p ∈ a, ValidPt p) (hvb : ∀ p ∈ b, ValidPt p) :
    ∃ w, hausdorff_directed_naive a b = .ok w ∧
      ∃ oi ci : ℕ, ∃ hoi : oi < a.length, ∃ hci : ci < b.length,
        w.origin_index = (oi : ℤ) ∧ w.candidate_index = (ci : ℤ) ∧
        0 ≤ w.origin_index ∧ 0 ≤ w.candidate_index ∧
        w.distance_m = dist2 (a.get ⟨oi, hoi⟩) (b.get ⟨ci, hci⟩) ∧
        (∀ j (hj : j < b.length), w.distance_m ≤ dist2 (a.get ⟨oi, hoi⟩) (b.get ⟨j, hj⟩)) ∧
        (∀ k (hk : k < a.length), ∃ j, ∃ hj : j < b.length,
          dist2 (a.get ⟨k, hk⟩) (b.get ⟨j, hj⟩) ≤ w.distance_m) := by
  cases a with
  | nil => exact absurd rfl ha
  | cons a0 rest =>
    cases b with
    | nil => exact absurd rfl hb
    | cons b0 bs =>
      obtain ⟨M, oi, ci, hoi, hci, heq, hreal, hmin, -, hmax, -⟩ :=
        directed_hausdorff_spec a0 rest b0 bs
          (hva a0 (List.mem_cons_self _ _)) (fun p hp => hva p (List.mem_cons_of_mem _ hp))
          (hvb b0 (List.mem_cons_self _ _)) (fun p hp => hvb p (List.mem_cons_of_mem _ hp))
      exact ⟨⟨M, (oi : ℤ), (ci : ℤ)⟩, heq, oi, ci, hoi, hci, rfl, rfl,
        Int.natCast_nonneg oi, Int.natCast_nonneg ci, hreal, hmin, hmax⟩

/-- Witness for C10 at `A = [(0,0), (0,1)]`, `B = [(0,1)]`. -/
theorem hausdorff_witness_realization_witness :
    ([((0 : ℝ), (0 : ℝ)), ((0 : ℝ), (1 : ℝ))] ≠ ([] : List Pt)) ∧
      ([((0 : ℝ), (1 : ℝ))] ≠ ([] : List Pt)) ∧
      ∃ w, hausdorff_directed_naive [((0 : ℝ), (0 : ℝ)), ((0 : ℝ), (1 : ℝ))]
          [((0 : ℝ), (1 : ℝ))] = .ok w ∧
        ∃ oi ci : ℕ, ∃ hoi : oi < [((0 : ℝ), (0 : ℝ)), ((0 : ℝ), (1 : ℝ))].length,
          ∃ hci : ci < [((0 : ℝ), (1 : ℝ))].length,
          w.origin_index = (oi : ℤ) ∧ w.candidate_index = (ci : ℤ) ∧
          0 ≤ w.origin_index ∧ 0 ≤ w.candidate_index ∧
          w.distance_m = dist2 ([((0 : ℝ), (0 : ℝ)), ((0 : ℝ), (1 : ℝ))].get ⟨oi, hoi⟩)
            ([((0 : ℝ), (1 : ℝ))].get ⟨ci, hci⟩) ∧
          (∀ j (hj : j < [((0 : ℝ), (1 : ℝ))].length),
            w.distance_m ≤ dist2 ([((0 : ℝ), (0 : ℝ)), ((0 : ℝ), (1 : ℝ))].get ⟨oi, hoi⟩)
              ([((0 : ℝ), (1 : ℝ))].get ⟨j, hj⟩)) ∧
          (∀ k (hk : k < [((0 : ℝ), (0 : ℝ)), ((0 : ℝ), (1 : ℝ))].length),
            ∃ j, ∃ hj : j < [((0 : ℝ), (1 : ℝ))].length,
              dist2 ([((0 : ℝ), (0 : ℝ)), ((0 : ℝ), (1 : ℝ))].get ⟨k, hk⟩)
                ([((0 : ℝ), (1 : ℝ))].get ⟨j, hj⟩) ≤ w.distance_m) :=
  ⟨by simp, by simp,
    hausdorff_witness_realization _ _ (by simp) (by simp)
      (by
        intro p hp
        rcases List.mem_cons.mp hp with h | h
        · exact h ▸ valid_00
        · exact (List.mem_singleton.mp h) ▸ valid_01)
      (fun p hp => (List.mem_singleton.mp hp) ▸ valid_01)⟩

/-- When every point is valid and inside the box, the clipping comprehension
keeps the whole list. -/
theorem clip_loop_id {pts : List Pt} {box : BoundingBox} (hv : ∀ p ∈ pts, ValidPt p)
    (hin : ∀ p ∈ pts, inBox box p) : clip_loop box pts = .ok pts := by
  induction pts with
  | nil => rfl
  | cons p ps ih =>
    have hvp := hv p (List.mem_cons_self _ _)
    have hinp := hin p (List.mem_cons_self _ _)
    simp only [clip_loop, point_from_any_eq_ok hvp,
      ih (fun q hq => hv q (List.mem_cons_of_mem _ hq))
        (fun q hq => hin q (List.mem_cons_of_mem _ hq))]
    rw [if_pos hinp]

/-- `_clip_points` is the identity on a non-empty list of valid points all
inside the box. -/
theorem clip_points_id {pts : List Pt} {box : BoundingBox} (hne : pts ≠ [])
    (hv : ∀ p ∈ pts, ValidPt p) (hin : ∀ p ∈ pts, inBox box p) :
    clip_points pts box = .ok pts := by
  cases pts with
  | nil => exact absurd rfl hne
  | cons p ps =>
    unfold clip_points
    rw [clip_loop_id hv hin]

/-- C9: when a bounding box contains every point of both non-empty validated
inputs, the clipped symmetric Hausdorff computation returns exactly the
unclipped result (same distance and both directed witnesses). -/
theorem hausdorff_clipped_eq_unclipped (a b : List Pt) (box : BoundingBox)
    (ha : a ≠ []) (hb : b ≠ []) (hva : ∀ p ∈ a, ValidPt p) (hvb : ∀ p ∈ b, ValidPt p)
    (hina : ∀ p ∈ a, inBox box p) (hinb : ∀ p ∈ b, inBox box p) :
    hausdorff_clipped_naive a b box = hausdorff_naive a b := by
  unfold hausdorff_clipped_naive hausdorff_naive
  rw [clip_points_id ha hva hina, clip_points_id hb hvb hinb]

/-- Witness for C9 at `A = [(0,0)]`, `B = [(0,1)]` and the box
`[-1, 1] × [-1, 2]`. -/
theorem hausdorff_clipped_eq_unclipped_witness :
    ([((0 : ℝ), (0 : ℝ))] ≠ ([] : List Pt)) ∧ ([((0 : ℝ), (1 : ℝ))] ≠ ([] : List Pt)) ∧
      hausdorff_clipped_naive [((0 : ℝ), (0 : ℝ))] [((0 : ℝ), (1 : ℝ))]
          ⟨-1, 1, -1, 2⟩ =
        hausdorff_naive [((0 : ℝ), (0 : ℝ))] [((0 : ℝ), (1 : ℝ))] :=
  ⟨by simp, by simp,
    hausdorff_clipped_eq_unclipped _ _ ⟨-1, 1, -1, 2⟩ (by simp) (by simp)
      (fun p hp => (List.mem_singleton.mp hp) ▸ valid_00)
      (fun p hp => (List.mem_singleton.mp hp) ▸ valid_01)
      (fun p hp => (List.mem_singleton.mp hp) ▸ by constructor <;> norm_num)
      (fun p hp => (List.mem_singleton.mp hp) ▸ by constructor <;> norm_num)⟩

/-- The scalar geodesic kernel as handed to the vectorized layer, with its
geodist-family exceptions marked as such. -/
noncomputable def geodesic_kernel_vec (p q : Pt) : Except PyExc ℝ :=
  match geodesic_distance_sphere p q with
  | .ok v => .ok v
  | .error e => .error (.geodist e)

/-- C8: for equal-length inputs, a geodist-family (domain) error raised by
the scalar operation for some element pair propagates unchanged through
`_dispatch` whichever path executed, and the sequential fallback is taken
only when numpy is unavailable or the bulk path failed with a non-domain
exception. -/
theorem dispatch_preserves_domain_errors {G T : Type} (hasNumpy : Bool)
    (f : G → G → Except PyExc T) (l r : List G) (hlen : l.length = r.length) :
    (∀ e : GeoErr, python_apply f l r = .error (.geodist e) →
      dispatch hasNumpy f l r = .error (.geodist e)) ∧
    (numpy_apply hasNumpy f l r = .ok none →
      hasNumpy = false ∨ ∃ t, python_apply f l r = .error (.other t)) := by
  constructor
  · intro e herr
    cases hasNumpy with
    | false =>
      have hnp : numpy_apply false f l r = .ok (none : Option (List T)) := by
        unfold numpy_apply
        rw [if_pos rfl]
      unfold dispatch
      rw [if_neg (by simp [hlen]), hnp]
      exact herr
    | true =>
      have hnp : numpy_apply true f l r = .error (.geodist e) := by
        unfold numpy_apply
        rw [if_neg (by simp), if_neg (by simp [hlen]), herr]
      unfold dispatch
      rw [if_neg (by simp [hlen]), hnp]
  · intro hnone
    cases hasNumpy with
    | false => exact Or.inl rfl
    | true =>
      refine Or.inr ?_
      unfold numpy_apply at hnone
      rw [if_neg (by simp), if_neg (by simp [hlen])] at hnone
      cases hpy : python_apply f l r with
      | ok ts =>
        rw [hpy] at hnone
        exact absurd hnone (by simp)
      | error e =>
        cases e with
        | geodist ge =>
          rw [hpy] at hnone
          exact absurd hnone (by simp)
        | other t => exact ⟨t, rfl⟩

/-- Witness for C8: the bulk path re-raises the domain error produced by the
geodesic kernel on the invalid latitude `200`. -/
theorem dispatch_preserves_domain_errors_witness :
    ([((0 : ℝ), (0 : ℝ))].length = [((200 : ℝ), (0 : ℝ))].length) ∧
      dispatch true geodesic_kernel_vec [((0 : ℝ), (0 : ℝ))] [((200 : ℝ), (0 : ℝ))] =
        .error (.geodist .invalidGeometry) := by
  have hself : python_apply geodesic_kernel_vec [((0 : ℝ), (0 : ℝ))] [((200 : ℝ), (0 : ℝ))] =
      .error (.geodist .invalidGeometry) := by
    have hbad : point_from_any ((200 : ℝ), (0 : ℝ)) = .error .invalidGeometry := by
      unfold point_from_any coerce_latitude
      rw [if_pos (Or.inr (by norm_num))]
    simp only [python_apply, geodesic_kernel_vec, geodesic_distance_sphere,
      point_from_any_eq_ok valid_00, hbad]
  exact ⟨rfl,
    (dispatch_preserves_domain_errors true geodesic_kernel_vec [((0 : ℝ), (0 : ℝ))]
      [((200 : ℝ), (0 : ℝ))] rfl).1 .invalidGeometry hself⟩

end Geodist
